import Mathlib

/-!
Shallow embedding of the executorjs workflow library core.

The embedding covers WorkflowContext, WorkflowEngine, the two built-in
step flavors (BasicStep as the basic constructor, ConditionalStep as the
conditional constructor of the WorkflowStep type) and the observer
contract, translated from src/core/WorkflowContext.ts,
src/core/WorkflowEngine.ts, src/steps/BasicStep.ts,
src/steps/ConditionalStep.ts and src/observers/PerformanceObserver.ts.

Modelling choices, stated once here:
- JavaScript values that steps throw are modelled by JsVal; an Error
  instance is the errObj constructor carrying its message.
- The Date clock and the uuid source are threaded through a World record.
  Each query of the clock advances it by one, so two successive instants
  are distinct.
- JavaScript objects are mutated in place and shared by reference.  The
  metadata object of a context is therefore modelled as a reference (an
  index) into a heap of metadata objects held in the World, which is what
  makes the sharing of a caller-supplied metadata seed across runs
  observable.  The remaining context fields are carried by value and the
  (single-threaded) run threads the context through every call, which is
  equivalent to in-place mutation because only one party runs at a time.
- Step executors and observer callbacks are arbitrary functions on the
  context and the world that may also throw, matching the duck-typed
  source contract.
- The engine run returns, besides the final context and world, a trace of
  the lifecycle notifications it issued, of the observer callbacks that
  fired or whose failure was logged, and of the steps it executed.
-/

/-- A JavaScript value, as far as the library inspects one: the engine only
distinguishes Error instances from everything else, via instanceof. -/
inductive JsVal where
  | undef : JsVal
  | boolVal : Bool → JsVal
  | numVal : Int → JsVal
  | strVal : String → JsVal
  | errObj : String → JsVal
  deriving DecidableEq, Repr

/-- The String(x) conversion of JavaScript, restricted to the modelled
values.  String of an Error instance uses the default Error name. -/
def jsToString : JsVal → String
  | .undef => "undefined"
  | .boolVal true => "true"
  | .boolVal false => "false"
  | .numVal n => toString n
  | .strVal s => s
  | .errObj m => "Error: " ++ m

/-- The instanceof Error test of WorkflowContext.addError. -/
def JsVal.isErrorInstance : JsVal → Bool
  | .errObj _ => true
  | _ => false

/-- The message computed by WorkflowContext.addError, line 83 of
WorkflowContext.ts: the message of an Error instance, otherwise the
String conversion of the thrown value. -/
def errMessage : JsVal → String
  | .errObj m => m
  | v => jsToString v

/-- A metadata object: an ordered mapping from string keys to values,
insertion ordered like a JavaScript object. -/
abbrev MetaMap := List (String × JsVal)

/-- Key update on a metadata object: an existing key is updated in place,
a new key is appended, matching JavaScript object assignment. -/
def MetaMap.setKey : MetaMap → String → JsVal → MetaMap
  | [], k, v => [(k, v)]
  | (k0, v0) :: rest, k, v =>
    if k0 = k then (k0, v) :: rest else (k0, v0) :: MetaMap.setKey rest k v

/-- Key lookup on a metadata object. -/
def MetaMap.getKey (m : MetaMap) (k : String) : Option JsVal :=
  (m.find? (fun p => p.1 == k)).map Prod.snd

/-- The ambient mutable world: the heap of metadata objects, the Date
clock, and the uuid source. -/
structure World where
  heap : List MetaMap
  clock : Nat
  ids : Nat
  deriving DecidableEq, Repr

/-- Reading the Date clock; the clock advances so that successive
instants differ. -/
def World.now (w : World) : Nat × World :=
  (w.clock, { w with clock := w.clock + 1 })

/-- Allocation of a fresh metadata object on the heap; the new reference
is the previous heap length. -/
def World.allocMeta (w : World) (m : MetaMap) : Nat × World :=
  (w.heap.length, { w with heap := w.heap ++ [m] })

/-- Generation of a fresh uuid. -/
def World.freshUuid (w : World) : String × World :=
  ("uuid-" ++ toString w.ids, { w with ids := w.ids + 1 })

/-- Dereferencing a metadata object. -/
def World.readMeta (w : World) (r : Nat) : Option MetaMap :=
  w.heap.get? r

/-- Overwriting a metadata object in place. -/
def World.writeMeta (w : World) (r : Nat) (m : MetaMap) : World :=
  { w with heap := w.heap.set r m }

/-- An error record of the context, WorkflowContext.ts lines 6 to 15. -/
structure WorkflowError where
  step : String
  message : String
  details : JsVal
  timestamp : Nat
  deriving DecidableEq, Repr

/-- The options of the WorkflowContext constructor, WorkflowContext.ts
lines 20 to 31.  The metadata option is a reference to a caller-owned
metadata object, if supplied. -/
structure WorkflowContextOptions where
  workflowId : Option String
  workflowName : String
  input : Option JsVal
  result : Option JsVal
  metadataRef : Option Nat
  deriving DecidableEq, Repr

/-- The per-run context, WorkflowContext.ts lines 37 to 63.  The metadata
field holds the reference to the metadata object on the heap. -/
structure WorkflowContext where
  workflowId : String
  workflowName : String
  input : Option JsVal
  result : Option JsVal
  errors : List WorkflowError
  metadataRef : Nat
  currentStepName : Option String
  startTime : Nat
  endTime : Option Nat
  deriving DecidableEq, Repr

/-- The WorkflowContext constructor, lines 68 to 75: the id defaults to a
fresh uuid, the metadata defaults to a fresh empty object (a supplied
metadata option is taken by reference, not copied), the start time is the
current instant. -/
def WorkflowContext.construct (o : WorkflowContextOptions) (w : World) :
    WorkflowContext × World :=
  let pid := match o.workflowId with
    | some s => (s, w)
    | none => w.freshUuid
  let pref := match o.metadataRef with
    | some r => (r, pid.2)
    | none => pid.2.allocMeta []
  let pt := pref.2.now
  ({ workflowId := pid.1, workflowName := o.workflowName, input := o.input,
     result := o.result, errors := [], metadataRef := pref.1,
     currentStepName := none, startTime := pt.1, endTime := none }, pt.2)

/-- WorkflowContext.addError, lines 80 to 87: appends one record whose
message is the Error message for Error instances and the String
conversion otherwise, and whose details field is the original thrown
value; the timestamp is the current instant. -/
def WorkflowContext.addError (c : WorkflowContext) (step : String)
    (e : JsVal) (w : World) : WorkflowContext × World :=
  let pt := w.now
  ({ c with errors := c.errors ++
      [{ step := step, message := errMessage e, details := e,
         timestamp := pt.1 }] }, pt.2)

/-- WorkflowContext.complete, lines 92 to 94: sets the end time to the
current instant, unconditionally. -/
def WorkflowContext.complete (c : WorkflowContext) (w : World) :
    WorkflowContext × World :=
  let pt := w.now
  ({ c with endTime := some pt.1 }, pt.2)

/-- The durationMs getter, lines 99 to 102. -/
def WorkflowContext.durationMs (c : WorkflowContext) : Option Int :=
  c.endTime.map (fun e => (e : Int) - (c.startTime : Int))

/-- The successful getter, lines 107 to 109. -/
def WorkflowContext.successful (c : WorkflowContext) : Bool :=
  c.errors.length == 0

/-- The outcome of one call into user code (a step executor, a condition,
or an observer callback): the context and world after its in-place
mutations, plus the value it threw, if it threw. -/
structure StepOutcome where
  ctx : WorkflowContext
  world : World
  thrown : Option JsVal

/-- A callback taking only the context, like onWorkflowStart. -/
abbrev Callback0 := WorkflowContext → World → StepOutcome

/-- A callback taking a step name and the context. -/
abbrev Callback1 := String → WorkflowContext → World → StepOutcome

/-- A callback taking a step name, the thrown error and the context. -/
abbrev Callback2 := String → JsVal → WorkflowContext → World → StepOutcome

/-- The observer contract of WorkflowObserver.ts: five independently
optional callbacks. -/
structure WorkflowObserver where
  onStepStart : Option Callback1
  onStepComplete : Option Callback1
  onStepError : Option Callback2
  onWorkflowComplete : Option Callback0
  onWorkflowStart : Option Callback0

/-- A lifecycle event together with its arguments. -/
inductive Event where
  | wfStart : Event
  | stepStart : String → Event
  | stepComplete : String → Event
  | stepError : String → JsVal → Event
  | wfComplete : Event
  deriving DecidableEq, Repr

/-- The five lifecycle event kinds, without arguments. -/
inductive EventKind where
  | wfStart : EventKind
  | stepStart : EventKind
  | stepComplete : EventKind
  | stepError : EventKind
  | wfComplete : EventKind
  deriving DecidableEq, Repr

/-- The kind of an event. -/
def Event.kind : Event → EventKind
  | .wfStart => .wfStart
  | .stepStart _ => .stepStart
  | .stepComplete _ => .stepComplete
  | .stepError _ _ => .stepError
  | .wfComplete => .wfComplete

/-- The step name an event refers to, when it refers to one. -/
def Event.stepName : Event → Option String
  | .stepStart n => some n
  | .stepComplete n => some n
  | .stepError n _ => some n
  | _ => none

/-- The lookup observer[eventName] of WorkflowEngine.notifyObservers,
line 140, with the event arguments already applied: the callback the
observer registered for this event, if any. -/
def WorkflowObserver.callbackFor (o : WorkflowObserver) :
    Event → Option Callback0
  | .wfStart => o.onWorkflowStart
  | .stepStart n => o.onStepStart.map (fun f => f n)
  | .stepComplete n => o.onStepComplete.map (fun f => f n)
  | .stepError n e => o.onStepError.map (fun f => f n e)
  | .wfComplete => o.onWorkflowComplete

/-- One entry of the run trace: a notifyObservers call issued by the
engine, an observer callback that fired, a logged observer failure
(the console.error of WorkflowEngine.ts line 145), or a step execution. -/
inductive TraceEntry where
  | notified : Event → TraceEntry
  | obsFired : Nat → Event → TraceEntry
  | obsLogged : Nat → Event → TraceEntry
  | stepExecuted : String → TraceEntry
  deriving DecidableEq, Repr

/-- The result of a run fragment: final context, final world, trace. -/
structure RunResult where
  ctx : WorkflowContext
  world : World
  trace : List TraceEntry

/-- One iteration of the notifyObservers loop, WorkflowEngine.ts lines
139 to 148: if the observer registered a callback for the event it is
invoked, and a failure is caught and logged, never propagated. -/
def notifyOne (i : Nat) (o : WorkflowObserver) (ev : Event)
    (c : WorkflowContext) (w : World) : RunResult :=
  match o.callbackFor ev with
  | none => ⟨c, w, []⟩
  | some f =>
    let r := f c w
    match r.thrown with
    | none => ⟨r.ctx, r.world, [.obsFired i ev]⟩
    | some _ => ⟨r.ctx, r.world, [.obsFired i ev, .obsLogged i ev]⟩

/-- The notifyObservers loop from position i on: registration order,
each callback awaited before the next. -/
def notifyFrom : Nat → List WorkflowObserver → Event → WorkflowContext →
    World → RunResult
  | _, [], _, c, w => ⟨c, w, []⟩
  | i, o :: rest, ev, c, w =>
    let r1 := notifyOne i o ev c w
    let r2 := notifyFrom (i + 1) rest ev r1.ctx r1.world
    ⟨r2.ctx, r2.world, r1.trace ++ r2.trace⟩

/-- WorkflowEngine.notifyObservers, lines 138 to 149. -/
def notifyObservers (obs : List WorkflowObserver) (ev : Event)
    (c : WorkflowContext) (w : World) : RunResult :=
  let r := notifyFrom 0 obs ev c w
  ⟨r.ctx, r.world, .notified ev :: r.trace⟩

/-- A workflow step: the basic constructor is BasicStep.ts (a named
executor function), the conditional constructor is ConditionalStep.ts
(a name, a predicate, a true child, an optional false child). -/
inductive WorkflowStep where
  | basic : String → (WorkflowContext → World → StepOutcome) → WorkflowStep
  | conditional : String → (WorkflowContext → Bool) → WorkflowStep →
      Option WorkflowStep → WorkflowStep

/-- The name of a step. -/
def WorkflowStep.name : WorkflowStep → String
  | .basic n _ => n
  | .conditional n _ _ _ => n

/-- Step execution: BasicStep.execute invokes the executor and
propagates its outcome unchanged; ConditionalStep.execute (lines 44 to
52) evaluates the condition, delegates to the true child on true, to the
false child on false when one exists, and otherwise completes with no
effect.  No renaming of any thrown value happens here. -/
def WorkflowStep.execute : WorkflowStep → WorkflowContext → World →
    StepOutcome
  | .basic _ f, c, w => f c w
  | .conditional _ cond t fs, c, w =>
    if cond c then t.execute c w
    else
      match fs with
      | some s => s.execute c w
      | none => ⟨c, w, none⟩

/-- The engine options, WorkflowEngine.ts lines 8 to 14: the context
options minus input, plus continueOnError and maxConcurrency. -/
structure WorkflowEngineOptions where
  workflowId : Option String
  workflowName : String
  metadataRef : Option Nat
  result : Option JsVal
  continueOnError : Option Bool
  maxConcurrency : Option Nat
  deriving DecidableEq, Repr

/-- The engine: ordered step list, ordered observer list, options. -/
structure WorkflowEngine where
  steps : List WorkflowStep
  observers : List WorkflowObserver
  options : WorkflowEngineOptions

/-- The WorkflowEngine constructor, lines 27 to 33: spreads the options
and defaults continueOnError to false and maxConcurrency to 1.  The
spread copies the metadata reference, not the metadata object. -/
def WorkflowEngine.create (o : WorkflowEngineOptions) : WorkflowEngine :=
  { steps := [], observers := [],
    options := { o with
      continueOnError := some (o.continueOnError.getD false),
      maxConcurrency := some (o.maxConcurrency.getD 1) } }

/-- WorkflowEngine.addStep, lines 39 to 42. -/
def WorkflowEngine.addStep (eng : WorkflowEngine) (s : WorkflowStep) :
    WorkflowEngine :=
  { eng with steps := eng.steps ++ [s] }

/-- WorkflowEngine.addSteps, lines 47 to 50. -/
def WorkflowEngine.addSteps (eng : WorkflowEngine)
    (ss : List WorkflowStep) : WorkflowEngine :=
  { eng with steps := eng.steps ++ ss }

/-- WorkflowEngine.addObserver, lines 55 to 58. -/
def WorkflowEngine.addObserver (eng : WorkflowEngine)
    (o : WorkflowObserver) : WorkflowEngine :=
  { eng with observers := eng.observers ++ [o] }

/-- WorkflowEngine.addObservers, lines 63 to 66. -/
def WorkflowEngine.addObservers (eng : WorkflowEngine)
    (os : List WorkflowObserver) : WorkflowEngine :=
  { eng with observers := eng.observers ++ os }

/-- The context options built by execute, lines 73 to 76: the spread of
the engine options plus the input.  The maxConcurrency and
continueOnError fields of the spread are ignored by the context
constructor, which reads only these five fields. -/
def WorkflowEngine.ctxOptions (o : WorkflowEngineOptions)
    (input : Option JsVal) : WorkflowContextOptions :=
  { workflowId := o.workflowId, workflowName := o.workflowName,
    input := input, result := o.result, metadataRef := o.metadataRef }

/-- The tail of one iteration of the step loop, after the step has been
executed, WorkflowEngine.ts lines 90 to 105: on success notify
step-complete and continue with k; on failure record the error under the
name of the registered step, notify step-error, and continue with k only
when continueOnError holds. -/
def stepFinish (cont : Bool) (obs : List WorkflowObserver)
    (s : WorkflowStep) (k : WorkflowContext → World → RunResult)
    (r1 : RunResult) (out : StepOutcome) : RunResult :=
  match out.thrown with
  | none =>
    let r2 := notifyObservers obs (.stepComplete s.name) out.ctx out.world
    let r3 := k r2.ctx r2.world
    ⟨r3.ctx, r3.world,
      r1.trace ++ [.stepExecuted s.name] ++ r2.trace ++ r3.trace⟩
  | some e =>
    let pe := out.ctx.addError s.name e out.world
    let r2 := notifyObservers obs (.stepError s.name e) pe.1 pe.2
    if cont then
      let r3 := k r2.ctx r2.world
      ⟨r3.ctx, r3.world,
        r1.trace ++ [.stepExecuted s.name] ++ r2.trace ++ r3.trace⟩
    else
      ⟨r2.ctx, r2.world, r1.trace ++ [.stepExecuted s.name] ++ r2.trace⟩

/-- The step executed on the context as notified, lines 87 to 90. -/
def stepAfter (cont : Bool) (obs : List WorkflowObserver)
    (s : WorkflowStep) (k : WorkflowContext → World → RunResult)
    (r1 : RunResult) : RunResult :=
  stepFinish cont obs s k r1 (s.execute r1.ctx r1.world)

/-- One iteration of the step loop, lines 82 to 105: set currentStepName
to the name of the step, notify step-start, then execute the step. -/
def stepGo (cont : Bool) (obs : List WorkflowObserver) (s : WorkflowStep)
    (k : WorkflowContext → World → RunResult) (c : WorkflowContext)
    (w : World) : RunResult :=
  stepAfter cont obs s k
    (notifyObservers obs (.stepStart s.name)
      { c with currentStepName := some s.name } w)

/-- The step loop of execute, lines 82 to 106, in registration order. -/
def runSteps (cont : Bool) (obs : List WorkflowObserver) :
    List WorkflowStep → WorkflowContext → World → RunResult
  | [] => fun c w => ⟨c, w, []⟩
  | s :: rest => stepGo cont obs s (runSteps cont obs rest)

/-- WorkflowEngine.execute, lines 71 to 115: construct the context from
the engine options plus the input, notify workflow-start, run the steps,
mark the context complete, notify workflow-complete, and return the
context.  The function is total: no step or observer failure escapes. -/
def WorkflowEngine.execute (eng : WorkflowEngine) (input : Option JsVal)
    (w : World) : RunResult :=
  let pc := WorkflowContext.construct
    (WorkflowEngine.ctxOptions eng.options input) w
  let r1 := notifyObservers eng.observers .wfStart pc.1 pc.2
  let r2 := runSteps (eng.options.continueOnError.getD false)
    eng.observers eng.steps r1.ctx r1.world
  let pd := r2.ctx.complete r2.world
  let r3 := notifyObservers eng.observers .wfComplete pd.1 pd.2
  ⟨r3.ctx, r3.world, r1.trace ++ r2.trace ++ r3.trace⟩

/-- The events carried by a trace entry, if it carries one. -/
def entryEvent : TraceEntry → Option Event
  | .notified ev => some ev
  | .obsFired _ ev => some ev
  | .obsLogged _ ev => some ev
  | .stepExecuted _ => none

/-- Whether a trace entry refers to the step with the given name. -/
def TraceEntry.touches : TraceEntry → String → Bool
  | .stepExecuted m, n => m == n
  | .notified ev, n => ev.stepName == some n
  | .obsFired _ ev, n => ev.stepName == some n
  | .obsLogged _ ev, n => ev.stepName == some n

/-- The notifyObservers calls recorded in a trace, in order. -/
def notifiedEvents (tr : List TraceEntry) : List Event :=
  tr.filterMap (fun t => match t with
    | .notified ev => some ev
    | _ => none)

/-- The names of the steps a trace records as executed, in order. -/
def stepExecs (tr : List TraceEntry) : List String :=
  tr.filterMap (fun t => match t with
    | .stepExecuted n => some n
    | _ => none)

/-- The step-error notifications of a trace, as pairs of the step name
the error was attributed to and the thrown value, in order. -/
def stepErrorEvents (tr : List TraceEntry) : List (String × JsVal) :=
  tr.filterMap (fun t => match t with
    | .notified (.stepError n e) => some (n, e)
    | _ => none)

/-- The step-error pair of a single event, as a list. -/
def evErrList : Event → List (String × JsVal)
  | .stepError n e => [(n, e)]
  | _ => []

/-- The error records of a context, projected to the attributed step name
and the original thrown value. -/
def errPairs (c : WorkflowContext) : List (String × JsVal) :=
  c.errors.map (fun r => (r.step, r.details))

/-- A trace with the logged observer failures removed: what remains is
the notification and execution behaviour of the engine proper. -/
def stripLogs (tr : List TraceEntry) : List TraceEntry :=
  tr.filter (fun t => match t with
    | .obsLogged _ _ => false
    | _ => true)

/-- A user function is tame when it does not write the engine-owned
context fields errors and currentStepName.  The data model of the spec assigns
errors and currentStepName to the engine alone; steps and observers
mutate input, result and metadata. -/
def TameFun (f : WorkflowContext → World → StepOutcome) : Prop :=
  ∀ c w, ((f c w).ctx).errors = c.errors ∧
    ((f c w).ctx).currentStepName = c.currentStepName

/-- A step is tame when its execution is. -/
def TameStep (s : WorkflowStep) : Prop :=
  TameFun s.execute

/-- An observer is tame when every callback it registered is. -/
def TameObserver (o : WorkflowObserver) : Prop :=
  ∀ ev f, o.callbackFor ev = some f → TameFun f

/-- A step that completes on every context. -/
def SucceedsStep (s : WorkflowStep) : Prop :=
  ∀ c w, (s.execute c w).thrown = none

/-- A step that throws on every context. -/
def FailsStep (s : WorkflowStep) : Prop :=
  ∀ c w, ∃ e, (s.execute c w).thrown = some e

/-- A callback with its thrown value discarded: same in-place effects on
the context and the world, but it completes instead of throwing. -/
def suppress (f : Callback0) : Callback0 :=
  fun c w => { f c w with thrown := none }

/-- An observer with the callback of one event kind replaced by its
suppressed variant: the run where that callback succeeds instead of
raising, with identical effects. -/
def WorkflowObserver.suppressAt (o : WorkflowObserver) :
    EventKind → WorkflowObserver
  | .wfStart => { o with onWorkflowStart := o.onWorkflowStart.map suppress }
  | .stepStart =>
    { o with onStepStart := o.onStepStart.map (fun f n => suppress (f n)) }
  | .stepComplete =>
    { o with onStepComplete :=
        o.onStepComplete.map (fun f n => suppress (f n)) }
  | .stepError =>
    { o with onStepError :=
        o.onStepError.map (fun f n e => suppress (f n e)) }
  | .wfComplete =>
    { o with onWorkflowComplete := o.onWorkflowComplete.map suppress }

/-- The private state of the duration-aggregating observer,
PerformanceObserver.ts line 10: start timestamps keyed by
workflowId:stepName. -/
structure PerfState where
  stepStartTimes : List (String × Nat)
  deriving DecidableEq, Repr

/-- The performance record the observer keeps in context.metadata, as far
as the per-step part is concerned, PerformanceObserver.ts line 81. -/
structure PerfMetrics where
  steps : List (String × Nat)
  deriving DecidableEq, Repr

/-- Lookup in a string-keyed natural map. -/
def lookupNat (l : List (String × Nat)) (k : String) : Option Nat :=
  (l.find? (fun p => p.1 == k)).map Prod.snd

/-- Key update in a string-keyed natural map, JavaScript object style. -/
def setNat : List (String × Nat) → String → Nat → List (String × Nat)
  | [], k, v => [(k, v)]
  | (k0, v0) :: rest, k, v =>
    if k0 = k then (k0, v) :: rest else (k0, v0) :: setNat rest k v

/-- The delete operator on a string-keyed natural map. -/
def eraseNat (l : List (String × Nat)) (k : String) :
    List (String × Nat) :=
  l.filter (fun p => p.1 != k)

/-- The workflowId:stepName key of PerformanceObserver. -/
def perfKey (wid sn : String) : String :=
  wid ++ ":" ++ sn

/-- PerformanceObserver.onStepStart, lines 15 to 17: record the current
instant under the key of the run and step. -/
def PerformanceObserver.onStepStart (st : PerfState) (nowT : Nat)
    (wid sn : String) : PerfState :=
  ⟨setNat st.stepStartTimes (perfKey wid sn) nowT⟩

/-- PerformanceObserver.recordStepDuration, lines 78 to 86: the
performance record is created in the metadata when absent, then the step
duration is written under the step name. -/
def PerformanceObserver.recordStepDuration (sn : String) (d : Nat)
    (perf : Option PerfMetrics) : Option PerfMetrics :=
  match perf with
  | none => some ⟨setNat [] sn d⟩
  | some p => some ⟨setNat p.steps sn d⟩

/-- PerformanceObserver.onStepComplete, lines 22 to 31: look up the start
time; a missing start time, and likewise a start time of 0 (both falsy in
the source test on line 24), return with no effect; otherwise record the
elapsed duration and discard the start time. -/
def PerformanceObserver.onStepComplete (st : PerfState) (nowT : Nat)
    (wid sn : String) (perf : Option PerfMetrics) :
    PerfState × Option PerfMetrics :=
  match lookupNat st.stepStartTimes (perfKey wid sn) with
  | none => (st, perf)
  | some t =>
    if t = 0 then (st, perf)
    else
      (⟨eraseNat st.stepStartTimes (perfKey wid sn)⟩,
        PerformanceObserver.recordStepDuration sn (nowT - t) perf)

/-- PerformanceObserver.onStepError, lines 36 to 39: delegates to
onStepComplete, so that an error does not suppress duration recording. -/
def PerformanceObserver.onStepError (st : PerfState) (nowT : Nat)
    (wid sn : String) (perf : Option PerfMetrics) :
    PerfState × Option PerfMetrics :=
  PerformanceObserver.onStepComplete st nowT wid sn perf

/-! Concrete fixtures used by witnesses and counterexamples. -/

/-- An empty starting world. -/
def w0 : World := ⟨[], 0, 0⟩

/-- A world whose heap already holds one caller-owned metadata object,
the object a caller passes as the metadata option. -/
def wSeed : World := ⟨[[]], 0, 0⟩

/-- A step executor that completes with no effect. -/
def okExec : WorkflowContext → World → StepOutcome :=
  fun c w => ⟨c, w, none⟩

/-- A step executor that throws the string "boom" with no effect. -/
def failExec : WorkflowContext → World → StepOutcome :=
  fun c w => ⟨c, w, some (.strVal "boom")⟩

/-- A step executor that writes key "k" into the metadata object of its
context, through the shared reference. -/
def writeExec : WorkflowContext → World → StepOutcome :=
  fun c w =>
    ⟨c, w.writeMeta c.metadataRef
      (((w.readMeta c.metadataRef).getD []).setKey "k" (.numVal 1)), none⟩

/-- Step A of the three-step scenarios: succeeds. -/
def stepA : WorkflowStep := .basic "A" okExec

/-- Step B of the three-step scenarios: fails. -/
def stepB : WorkflowStep := .basic "B" failExec

/-- Step C of the three-step scenarios: succeeds. -/
def stepC : WorkflowStep := .basic "C" okExec

/-- Engine options with all the optional fields absent except the id. -/
def optsPlain : WorkflowEngineOptions :=
  ⟨some "wid", "wf", none, none, none, none⟩

/-- Engine options with continueOnError set. -/
def optsCont : WorkflowEngineOptions :=
  ⟨some "wid", "wf", none, none, some true, none⟩

/-- Engine options carrying a caller-supplied metadata object, the one at
heap reference 0 of wSeed. -/
def optsSeed : WorkflowEngineOptions :=
  ⟨some "wid", "wf", some 0, none, none, none⟩

/-- An engine with a single failing step and no observers. -/
def engFail : WorkflowEngine := ⟨[stepB], [], optsPlain⟩

/-- The failing three-step engine with the stopping policy. -/
def engStop : WorkflowEngine := ⟨[stepA, stepB, stepC], [], optsPlain⟩

/-- The failing three-step engine with continueOnError. -/
def engCont : WorkflowEngine := ⟨[stepA, stepB, stepC], [], optsCont⟩

/-- A conditional step named "branch" whose predicate holds, delegating
to a failing child named "child". -/
def condStep : WorkflowStep :=
  .conditional "branch" (fun _ => true) (.basic "child" failExec) none

/-- An engine with the single conditional step. -/
def engCond : WorkflowEngine := ⟨[condStep], [], optsPlain⟩

/-- An engine whose options carry the caller-owned metadata object and
whose single step writes into it. -/
def engSeed : WorkflowEngine := ⟨[.basic "writer" writeExec], [], optsSeed⟩

/-- A concrete context for the context-level witnesses. -/
def ctxEx : WorkflowContext :=
  (WorkflowContext.construct ⟨some "wid", "wf", none, none, none⟩ w0).1

/-! Helper lemmas on the notification loop. -/

theorem notifyOne_trace_cases (i : Nat) (o : WorkflowObserver) (ev : Event)
    (c : WorkflowContext) (w : World) :
    (notifyOne i o ev c w).trace = [] ∨
    (notifyOne i o ev c w).trace = [.obsFired i ev] ∨
    (notifyOne i o ev c w).trace = [.obsFired i ev, .obsLogged i ev] := by
  unfold notifyOne
  cases hcb : o.callbackFor ev with
  | none => simp
  | some f => cases h2 : (f c w).thrown <;> simp [h2]

theorem notifyOne_tame (i : Nat) (o : WorkflowObserver) (ev : Event)
    (c : WorkflowContext) (w : World) (h : TameObserver o) :
    (notifyOne i o ev c w).ctx.errors = c.errors ∧
    (notifyOne i o ev c w).ctx.currentStepName = c.currentStepName := by
  unfold notifyOne
  cases hcb : o.callbackFor ev with
  | none => simp
  | some f =>
    have hf := h ev f hcb c w
    cases h2 : (f c w).thrown <;> simp [h2] <;>
      exact ⟨hf.1, hf.2⟩

theorem notifyFrom_tame (obs : List WorkflowObserver) : ∀ (i : Nat)
    (ev : Event) (c : WorkflowContext) (w : World),
    (∀ o ∈ obs, TameObserver o) →
    (notifyFrom i obs ev c w).ctx.errors = c.errors ∧
    (notifyFrom i obs ev c w).ctx.currentStepName = c.currentStepName := by
  induction obs with
  | nil => intro i ev c w _; exact ⟨rfl, rfl⟩
  | cons o rest ih =>
    intro i ev c w h
    have h1 := notifyOne_tame i o ev c w (h o (List.mem_cons_self o rest))
    have h2 := ih (i + 1) ev (notifyOne i o ev c w).ctx
      (notifyOne i o ev c w).world
      (fun o2 ho2 => h o2 (List.mem_cons_of_mem _ ho2))
    exact ⟨h2.1.trans h1.1, h2.2.trans h1.2⟩

theorem notifyObservers_tame (obs : List WorkflowObserver) (ev : Event)
    (c : WorkflowContext) (w : World) (h : ∀ o ∈ obs, TameObserver o) :
    (notifyObservers obs ev c w).ctx.errors = c.errors ∧
    (notifyObservers obs ev c w).ctx.currentStepName = c.currentStepName :=
  notifyFrom_tame obs 0 ev c w h

theorem notifyFrom_shape (obs : List WorkflowObserver) : ∀ (i : Nat)
    (ev : Event) (c : WorkflowContext) (w : World)
    (t : TraceEntry), t ∈ (notifyFrom i obs ev c w).trace →
    ∃ j, t = .obsFired j ev ∨ t = .obsLogged j ev := by
  induction obs with
  | nil => intro i ev c w t ht; simp [notifyFrom] at ht
  | cons o rest ih =>
    intro i ev c w t ht
    have hsplit : t ∈ (notifyOne i o ev c w).trace ∨
        t ∈ (notifyFrom (i + 1) rest ev (notifyOne i o ev c w).ctx
          (notifyOne i o ev c w).world).trace := by
      have : (notifyFrom i (o :: rest) ev c w).trace =
          (notifyOne i o ev c w).trace ++
          (notifyFrom (i + 1) rest ev (notifyOne i o ev c w).ctx
            (notifyOne i o ev c w).world).trace := rfl
      rw [this] at ht
      exact List.mem_append.mp ht
    rcases hsplit with h1 | h2
    · rcases notifyOne_trace_cases i o ev c w with hc | hc | hc <;>
        rw [hc] at h1 <;> simp at h1
      · exact ⟨i, Or.inl h1⟩
      · rcases h1 with h1 | h1
        · exact ⟨i, Or.inl h1⟩
        · exact ⟨i, Or.inr h1⟩
    · exact ih (i + 1) ev _ _ t h2

theorem notifyObservers_shape (obs : List WorkflowObserver) (ev : Event)
    (c : WorkflowContext) (w : World) (t : TraceEntry)
    (ht : t ∈ (notifyObservers obs ev c w).trace) :
    t = .notified ev ∨ ∃ j, t = .obsFired j ev ∨ t = .obsLogged j ev := by
  have hdef : (notifyObservers obs ev c w).trace =
      .notified ev :: (notifyFrom 0 obs ev c w).trace := rfl
  rw [hdef] at ht
  rcases List.mem_cons.mp ht with h | h
  · exact Or.inl h
  · exact Or.inr (notifyFrom_shape obs 0 ev c w t h)

theorem notifyFrom_notifiedEvents (obs : List WorkflowObserver) (i : Nat)
    (ev : Event) (c : WorkflowContext) (w : World) :
    notifiedEvents (notifyFrom i obs ev c w).trace = [] := by
  unfold notifiedEvents
  rw [List.filterMap_eq_nil_iff]
  intro t ht
  rcases notifyFrom_shape obs i ev c w t ht with ⟨j, hj | hj⟩ <;>
    subst hj <;> rfl

theorem notifyFrom_stepExecs (obs : List WorkflowObserver) (i : Nat)
    (ev : Event) (c : WorkflowContext) (w : World) :
    stepExecs (notifyFrom i obs ev c w).trace = [] := by
  unfold stepExecs
  rw [List.filterMap_eq_nil_iff]
  intro t ht
  rcases notifyFrom_shape obs i ev c w t ht with ⟨j, hj | hj⟩ <;>
    subst hj <;> rfl

theorem notifyFrom_stepErrorEvents (obs : List WorkflowObserver) (i : Nat)
    (ev : Event) (c : WorkflowContext) (w : World) :
    stepErrorEvents (notifyFrom i obs ev c w).trace = [] := by
  unfold stepErrorEvents
  rw [List.filterMap_eq_nil_iff]
  intro t ht
  rcases notifyFrom_shape obs i ev c w t ht with ⟨j, hj | hj⟩ <;>
    subst hj <;> rfl

theorem notifyObservers_notifiedEvents (obs : List WorkflowObserver)
    (ev : Event) (c : WorkflowContext) (w : World) :
    notifiedEvents (notifyObservers obs ev c w).trace = [ev] := by
  have hdef : (notifyObservers obs ev c w).trace =
      .notified ev :: (notifyFrom 0 obs ev c w).trace := rfl
  rw [hdef]
  have htail := notifyFrom_notifiedEvents obs 0 ev c w
  unfold notifiedEvents at htail ⊢
  rw [List.filterMap_cons]
  simp only [htail]

theorem notifyObservers_stepExecs (obs : List WorkflowObserver)
    (ev : Event) (c : WorkflowContext) (w : World) :
    stepExecs (notifyObservers obs ev c w).trace = [] := by
  have hdef : (notifyObservers obs ev c w).trace =
      .notified ev :: (notifyFrom 0 obs ev c w).trace := rfl
  rw [hdef]
  have htail := notifyFrom_stepExecs obs 0 ev c w
  unfold stepExecs at htail ⊢
  rw [List.filterMap_cons]
  simp only [htail]

theorem notifyObservers_stepErrorEvents (obs : List WorkflowObserver)
    (ev : Event) (c : WorkflowContext) (w : World) :
    stepErrorEvents (notifyObservers obs ev c w).trace = evErrList ev := by
  have hdef : (notifyObservers obs ev c w).trace =
      .notified ev :: (notifyFrom 0 obs ev c w).trace := rfl
  rw [hdef]
  have htail := notifyFrom_stepErrorEvents obs 0 ev c w
  unfold stepErrorEvents at htail ⊢
  rw [List.filterMap_cons]
  cases ev <;> simp only [htail, evErrList]

theorem notifyObservers_touches (obs : List WorkflowObserver) (ev : Event)
    (c : WorkflowContext) (w : World) (n : String)
    (hev : (ev.stepName == some n) = false) :
    ∀ t ∈ (notifyObservers obs ev c w).trace, t.touches n = false := by
  intro t ht
  rcases notifyObservers_shape obs ev c w t ht with h | ⟨j, h | h⟩ <;>
    subst h <;> simpa [TraceEntry.touches] using hev

theorem notifyObservers_touches_only (obs : List WorkflowObserver)
    (ev : Event) (c : WorkflowContext) (w : World) :
    ∀ t ∈ (notifyObservers obs ev c w).trace, ∀ n : String,
    t.touches n = true → ev.stepName = some n := by
  intro t ht n htouch
  rcases notifyObservers_shape obs ev c w t ht with h | ⟨j, h | h⟩ <;>
    subst h <;>
    simpa [TraceEntry.touches] using htouch

theorem stepFinish_none (cont : Bool) (obs : List WorkflowObserver)
    (s : WorkflowStep) (k : WorkflowContext → World → RunResult)
    (r1 : RunResult) (out : StepOutcome) (h : out.thrown = none) :
    stepFinish cont obs s k r1 out =
      ⟨(k (notifyObservers obs (.stepComplete s.name) out.ctx out.world).ctx
          (notifyObservers obs (.stepComplete s.name) out.ctx
            out.world).world).ctx,
       (k (notifyObservers obs (.stepComplete s.name) out.ctx out.world).ctx
          (notifyObservers obs (.stepComplete s.name) out.ctx
            out.world).world).world,
       r1.trace ++ [.stepExecuted s.name] ++
         (notifyObservers obs (.stepComplete s.name) out.ctx
           out.world).trace ++
         (k (notifyObservers obs (.stepComplete s.name) out.ctx
              out.world).ctx
            (notifyObservers obs (.stepComplete s.name) out.ctx
              out.world).world).trace⟩ := by
  cases out with
  | mk oc ow ot =>
    simp only at h
    subst h
    rfl

theorem stepFinish_some_stop (obs : List WorkflowObserver)
    (s : WorkflowStep) (k : WorkflowContext → World → RunResult)
    (r1 : RunResult) (out : StepOutcome) (e : JsVal)
    (h : out.thrown = some e) :
    stepFinish false obs s k r1 out =
      ⟨(notifyObservers obs (.stepError s.name e)
          (out.ctx.addError s.name e out.world).1
          (out.ctx.addError s.name e out.world).2).ctx,
       (notifyObservers obs (.stepError s.name e)
          (out.ctx.addError s.name e out.world).1
          (out.ctx.addError s.name e out.world).2).world,
       r1.trace ++ [.stepExecuted s.name] ++
         (notifyObservers obs (.stepError s.name e)
           (out.ctx.addError s.name e out.world).1
           (out.ctx.addError s.name e out.world).2).trace⟩ := by
  cases out with
  | mk oc ow ot =>
    simp only at h
    subst h
    rfl

theorem stepFinish_some_cont (obs : List WorkflowObserver)
    (s : WorkflowStep) (k : WorkflowContext → World → RunResult)
    (r1 : RunResult) (out : StepOutcome) (e : JsVal)
    (h : out.thrown = some e) :
    stepFinish true obs s k r1 out =
      ⟨(k (notifyObservers obs (.stepError s.name e)
            (out.ctx.addError s.name e out.world).1
            (out.ctx.addError s.name e out.world).2).ctx
          (notifyObservers obs (.stepError s.name e)
            (out.ctx.addError s.name e out.world).1
            (out.ctx.addError s.name e out.world).2).world).ctx,
       (k (notifyObservers obs (.stepError s.name e)
            (out.ctx.addError s.name e out.world).1
            (out.ctx.addError s.name e out.world).2).ctx
          (notifyObservers obs (.stepError s.name e)
            (out.ctx.addError s.name e out.world).1
            (out.ctx.addError s.name e out.world).2).world).world,
       r1.trace ++ [.stepExecuted s.name] ++
         (notifyObservers obs (.stepError s.name e)
           (out.ctx.addError s.name e out.world).1
           (out.ctx.addError s.name e out.world).2).trace ++
         (k (notifyObservers obs (.stepError s.name e)
              (out.ctx.addError s.name e out.world).1
              (out.ctx.addError s.name e out.world).2).ctx
            (notifyObservers obs (.stepError s.name e)
              (out.ctx.addError s.name e out.world).1
              (out.ctx.addError s.name e out.world).2).world).trace⟩ := by
  cases out with
  | mk oc ow ot =>
    simp only at h
    subst h
    rfl

theorem runSteps_nil (cont : Bool) (obs : List WorkflowObserver)
    (c : WorkflowContext) (w : World) :
    runSteps cont obs [] c w = ⟨c, w, []⟩ := rfl

theorem runSteps_cons (cont : Bool) (obs : List WorkflowObserver)
    (s : WorkflowStep) (rest : List WorkflowStep) (c : WorkflowContext)
    (w : World) :
    runSteps cont obs (s :: rest) c w =
      stepFinish cont obs s (runSteps cont obs rest)
        (notifyObservers obs (.stepStart s.name)
          { c with currentStepName := some s.name } w)
        (s.execute
          (notifyObservers obs (.stepStart s.name)
            { c with currentStepName := some s.name } w).ctx
          (notifyObservers obs (.stepStart s.name)
            { c with currentStepName := some s.name } w).world) := rfl

theorem errPairs_congr {c1 c2 : WorkflowContext}
    (h : c1.errors = c2.errors) : errPairs c1 = errPairs c2 := by
  unfold errPairs
  rw [h]

theorem stepErrorEvents_append (a b : List TraceEntry) :
    stepErrorEvents (a ++ b) = stepErrorEvents a ++ stepErrorEvents b :=
  List.filterMap_append a b _

theorem notifiedEvents_append (a b : List TraceEntry) :
    notifiedEvents (a ++ b) = notifiedEvents a ++ notifiedEvents b :=
  List.filterMap_append a b _

theorem stepExecs_append (a b : List TraceEntry) :
    stepExecs (a ++ b) = stepExecs a ++ stepExecs b :=
  List.filterMap_append a b _

theorem addError_errPairs (c : WorkflowContext) (s : String) (e : JsVal)
    (w : World) :
    errPairs ((c.addError s e w).1) = errPairs c ++ [(s, e)] := by
  unfold WorkflowContext.addError errPairs
  simp

theorem addError_currentStepName (c : WorkflowContext) (s : String)
    (e : JsVal) (w : World) :
    ((c.addError s e w).1).currentStepName = c.currentStepName := rfl

theorem complete_errPairs (c : WorkflowContext) (w : World) :
    errPairs ((c.complete w).1) = errPairs c := rfl

theorem complete_currentStepName (c : WorkflowContext) (w : World) :
    ((c.complete w).1).currentStepName = c.currentStepName := rfl

theorem construct_errors (o : WorkflowContextOptions) (w : World) :
    ((WorkflowContext.construct o w).1).errors = [] := by
  unfold WorkflowContext.construct
  cases o.workflowId <;> cases o.metadataRef <;> rfl

theorem stepErrorEvents_stepExec (n : String) :
    stepErrorEvents [TraceEntry.stepExecuted n] = [] := rfl

theorem notifiedEvents_stepExec (n : String) :
    notifiedEvents [TraceEntry.stepExecuted n] = [] := rfl

theorem stepExecs_single (n : String) :
    stepExecs [TraceEntry.stepExecuted n] = [n] := rfl

theorem runSteps_errPairs (cont : Bool) (obs : List WorkflowObserver)
    (ho : ∀ o ∈ obs, TameObserver o) :
    ∀ ss : List WorkflowStep, (∀ s ∈ ss, TameStep s) →
    ∀ (c : WorkflowContext) (w : World),
    errPairs (runSteps cont obs ss c w).ctx
      = errPairs c ++ stepErrorEvents (runSteps cont obs ss c w).trace := by
  intro ss
  induction ss with
  | nil =>
    intro _ c w
    simp [runSteps_nil, stepErrorEvents]
  | cons s rest ih =>
    intro hs c w
    have hsT : TameStep s := hs s (List.mem_cons_self s rest)
    have hrest : ∀ x ∈ rest, TameStep x :=
      fun x hx => hs x (List.mem_cons_of_mem _ hx)
    rw [runSteps_cons]
    set r1 := notifyObservers obs (.stepStart s.name)
      { c with currentStepName := some s.name } w with hr1
    set out := s.execute r1.ctx r1.world with hout
    have herr1 : r1.ctx.errors = c.errors :=
      (notifyObservers_tame obs _ _ w ho).1
    have herrOut : out.ctx.errors = r1.ctx.errors := (hsT r1.ctx r1.world).1
    cases hthr : out.thrown with
    | none =>
      rw [stepFinish_none cont obs s _ r1 out hthr]
      set r2 := notifyObservers obs (.stepComplete s.name) out.ctx
        out.world with hr2
      have herr2 : r2.ctx.errors = out.ctx.errors :=
        (notifyObservers_tame obs _ _ out.world ho).1
      have h2 := ih hrest r2.ctx r2.world
      simp only [h2]
      have hce : errPairs r2.ctx = errPairs c :=
        errPairs_congr (herr2.trans (herrOut.trans herr1))
      rw [hce]
      simp only [stepErrorEvents_append, hr1, hr2,
        notifyObservers_stepErrorEvents, evErrList, stepErrorEvents_stepExec]
      simp
    | some e =>
      cases cont with
      | false =>
        rw [stepFinish_some_stop obs s _ r1 out e hthr]
        set pe := out.ctx.addError s.name e out.world with hpe
        set r2 := notifyObservers obs (.stepError s.name e) pe.1 pe.2
          with hr2
        have herr2 : r2.ctx.errors = pe.1.errors :=
          (notifyObservers_tame obs _ _ pe.2 ho).1
        have hadd : errPairs pe.1 = errPairs out.ctx ++ [(s.name, e)] :=
          addError_errPairs out.ctx s.name e out.world
        have hce : errPairs out.ctx = errPairs c :=
          errPairs_congr (herrOut.trans herr1)
        have : errPairs r2.ctx = errPairs c ++ [(s.name, e)] := by
          rw [errPairs_congr herr2, hadd, hce]
        simp only [this]
        simp only [stepErrorEvents_append, hr1, hr2,
          notifyObservers_stepErrorEvents, evErrList,
          stepErrorEvents_stepExec]
        simp
      | true =>
        rw [stepFinish_some_cont obs s _ r1 out e hthr]
        set pe := out.ctx.addError s.name e out.world with hpe
        set r2 := notifyObservers obs (.stepError s.name e) pe.1 pe.2
          with hr2
        have herr2 : r2.ctx.errors = pe.1.errors :=
          (notifyObservers_tame obs _ _ pe.2 ho).1
        have hadd : errPairs pe.1 = errPairs out.ctx ++ [(s.name, e)] :=
          addError_errPairs out.ctx s.name e out.world
        have hce : errPairs out.ctx = errPairs c :=
          errPairs_congr (herrOut.trans herr1)
        have hpair : errPairs r2.ctx = errPairs c ++ [(s.name, e)] := by
          rw [errPairs_congr herr2, hadd, hce]
        have h2 := ih hrest r2.ctx r2.world
        simp only [h2, hpair]
        simp only [stepErrorEvents_append, hr1, hr2,
          notifyObservers_stepErrorEvents, evErrList,
          stepErrorEvents_stepExec]
        simp

theorem notifiedEvents_nil : notifiedEvents [] = [] := rfl

theorem stepExecs_nil : stepExecs [] = [] := rfl

theorem stepErrorEvents_nil : stepErrorEvents [] = [] := rfl

theorem runSteps_cons_succ (cont : Bool) (obs : List WorkflowObserver)
    (ho : ∀ o ∈ obs, TameObserver o) (s : WorkflowStep)
    (hsS : SucceedsStep s) (hsT : TameStep s) (rest : List WorkflowStep)
    (c : WorkflowContext) (w : World) :
    ∃ c1 w1 tpre,
      runSteps cont obs (s :: rest) c w =
        ⟨(runSteps cont obs rest c1 w1).ctx,
         (runSteps cont obs rest c1 w1).world,
         tpre ++ (runSteps cont obs rest c1 w1).trace⟩ ∧
      c1.errors = c.errors ∧
      c1.currentStepName = some s.name ∧
      notifiedEvents tpre = [.stepStart s.name, .stepComplete s.name] ∧
      stepExecs tpre = [s.name] ∧
      stepErrorEvents tpre = [] ∧
      (∀ t ∈ tpre, ∀ n, t.touches n = true → n = s.name) := by
  rw [runSteps_cons]
  set r1 := notifyObservers obs (.stepStart s.name)
    { c with currentStepName := some s.name } w with hr1
  set out := s.execute r1.ctx r1.world with hout
  have hthr : out.thrown = none := hsS r1.ctx r1.world
  rw [stepFinish_none cont obs s _ r1 out hthr]
  set r2 := notifyObservers obs (.stepComplete s.name) out.ctx out.world
    with hr2
  refine ⟨r2.ctx, r2.world, r1.trace ++ [.stepExecuted s.name] ++ r2.trace,
    ?_, ?_, ?_, ?_, ?_, ?_, ?_⟩
  · simp [List.append_assoc]
  · have h1 : r1.ctx.errors = c.errors :=
      (notifyObservers_tame obs _ _ w ho).1
    have h2 : out.ctx.errors = r1.ctx.errors := (hsT r1.ctx r1.world).1
    have h3 : r2.ctx.errors = out.ctx.errors :=
      (notifyObservers_tame obs _ _ out.world ho).1
    exact h3.trans (h2.trans h1)
  · have h1 : r1.ctx.currentStepName = some s.name :=
      (notifyObservers_tame obs _ _ w ho).2
    have h2 : out.ctx.currentStepName = r1.ctx.currentStepName :=
      (hsT r1.ctx r1.world).2
    have h3 : r2.ctx.currentStepName = out.ctx.currentStepName :=
      (notifyObservers_tame obs _ _ out.world ho).2
    rw [h3, h2, h1]
  · simp only [notifiedEvents_append, hr1, hr2,
      notifyObservers_notifiedEvents, notifiedEvents_stepExec]
    simp
  · simp only [stepExecs_append, hr1, hr2, notifyObservers_stepExecs,
      stepExecs_single]
    simp
  · simp only [stepErrorEvents_append, hr1, hr2,
      notifyObservers_stepErrorEvents, evErrList, stepErrorEvents_stepExec]
    simp
  · intro t ht n htn
    rcases List.mem_append.mp ht with h | h
    · rcases List.mem_append.mp h with h | h
      · have h2 := notifyObservers_touches_only obs (.stepStart s.name)
          _ w t h n htn
        exact (Option.some.inj h2).symm
      · simp at h
        subst h
        have : (s.name == n) = true := htn
        exact (eq_of_beq this).symm
    · have h2 := notifyObservers_touches_only obs (.stepComplete s.name)
        out.ctx out.world t h n htn
      exact (Option.some.inj h2).symm

theorem runSteps_cons_fail_stop (obs : List WorkflowObserver)
    (ho : ∀ o ∈ obs, TameObserver o) (s : WorkflowStep)
    (hsF : FailsStep s) (hsT : TameStep s) (rest : List WorkflowStep)
    (c : WorkflowContext) (w : World) :
    ∃ e c1 w1 tr,
      runSteps false obs (s :: rest) c w = ⟨c1, w1, tr⟩ ∧
      errPairs c1 = errPairs c ++ [(s.name, e)] ∧
      c1.currentStepName = some s.name ∧
      notifiedEvents tr = [.stepStart s.name, .stepError s.name e] ∧
      stepExecs tr = [s.name] ∧
      (∀ t ∈ tr, ∀ n, t.touches n = true → n = s.name) := by
  rw [runSteps_cons]
  set r1 := notifyObservers obs (.stepStart s.name)
    { c with currentStepName := some s.name } w with hr1
  set out := s.execute r1.ctx r1.world with hout
  obtain ⟨e, hthr⟩ := hsF r1.ctx r1.world
  rw [stepFinish_some_stop obs s _ r1 out e hthr]
  set pe := out.ctx.addError s.name e out.world with hpe
  set r2 := notifyObservers obs (.stepError s.name e) pe.1 pe.2 with hr2
  refine ⟨e, r2.ctx, r2.world,
    r1.trace ++ [.stepExecuted s.name] ++ r2.trace, rfl, ?_, ?_, ?_, ?_, ?_⟩
  · have h1 : r1.ctx.errors = c.errors :=
      (notifyObservers_tame obs _ _ w ho).1
    have h2 : out.ctx.errors = r1.ctx.errors := (hsT r1.ctx r1.world).1
    have h3 : r2.ctx.errors = pe.1.errors :=
      (notifyObservers_tame obs _ _ pe.2 ho).1
    have hadd : errPairs pe.1 = errPairs out.ctx ++ [(s.name, e)] :=
      addError_errPairs out.ctx s.name e out.world
    rw [errPairs_congr h3, hadd, errPairs_congr (h2.trans h1)]
  · have h1 : r1.ctx.currentStepName = some s.name :=
      (notifyObservers_tame obs _ _ w ho).2
    have h2 : out.ctx.currentStepName = r1.ctx.currentStepName :=
      (hsT r1.ctx r1.world).2
    have h3 : r2.ctx.currentStepName = pe.1.currentStepName :=
      (notifyObservers_tame obs _ _ pe.2 ho).2
    have h4 : pe.1.currentStepName = out.ctx.currentStepName :=
      addError_currentStepName out.ctx s.name e out.world
    rw [h3, h4, h2, h1]
  · simp only [notifiedEvents_append, hr1, hr2,
      notifyObservers_notifiedEvents, notifiedEvents_stepExec]
    simp
  · simp only [stepExecs_append, hr1, hr2, notifyObservers_stepExecs,
      stepExecs_single]
    simp
  · intro t ht n htn
    rcases List.mem_append.mp ht with h | h
    · rcases List.mem_append.mp h with h | h
      · have h2 := notifyObservers_touches_only obs (.stepStart s.name)
          _ w t h n htn
        exact (Option.some.inj h2).symm
      · simp at h
        subst h
        have : (s.name == n) = true := htn
        exact (eq_of_beq this).symm
    · have h2 := notifyObservers_touches_only obs (.stepError s.name e)
        pe.1 pe.2 t h n htn
      exact (Option.some.inj h2).symm

theorem runSteps_cons_fail_cont (obs : List WorkflowObserver)
    (ho : ∀ o ∈ obs, TameObserver o) (s : WorkflowStep)
    (hsF : FailsStep s) (hsT : TameStep s) (rest : List WorkflowStep)
    (c : WorkflowContext) (w : World) :
    ∃ e c1 w1 tpre,
      runSteps true obs (s :: rest) c w =
        ⟨(runSteps true obs rest c1 w1).ctx,
         (runSteps true obs rest c1 w1).world,
         tpre ++ (runSteps true obs rest c1 w1).trace⟩ ∧
      errPairs c1 = errPairs c ++ [(s.name, e)] ∧
      c1.currentStepName = some s.name ∧
      notifiedEvents tpre = [.stepStart s.name, .stepError s.name e] ∧
      stepExecs tpre = [s.name] ∧
      (∀ t ∈ tpre, ∀ n, t.touches n = true → n = s.name) := by
  rw [runSteps_cons]
  set r1 := notifyObservers obs (.stepStart s.name)
    { c with currentStepName := some s.name } w with hr1
  set out := s.execute r1.ctx r1.world with hout
  obtain ⟨e, hthr⟩ := hsF r1.ctx r1.world
  rw [stepFinish_some_cont obs s _ r1 out e hthr]
  set pe := out.ctx.addError s.name e out.world with hpe
  set r2 := notifyObservers obs (.stepError s.name e) pe.1 pe.2 with hr2
  refine ⟨e, r2.ctx, r2.world,
    r1.trace ++ [.stepExecuted s.name] ++ r2.trace, ?_, ?_, ?_, ?_, ?_, ?_⟩
  · simp [List.append_assoc]
  · have h1 : r1.ctx.errors = c.errors :=
      (notifyObservers_tame obs _ _ w ho).1
    have h2 : out.ctx.errors = r1.ctx.errors := (hsT r1.ctx r1.world).1
    have h3 : r2.ctx.errors = pe.1.errors :=
      (notifyObservers_tame obs _ _ pe.2 ho).1
    have hadd : errPairs pe.1 = errPairs out.ctx ++ [(s.name, e)] :=
      addError_errPairs out.ctx s.name e out.world
    rw [errPairs_congr h3, hadd, errPairs_congr (h2.trans h1)]
  · have h1 : r1.ctx.currentStepName = some s.name :=
      (notifyObservers_tame obs _ _ w ho).2
    have h2 : out.ctx.currentStepName = r1.ctx.currentStepName :=
      (hsT r1.ctx r1.world).2
    have h3 : r2.ctx.currentStepName = pe.1.currentStepName :=
      (notifyObservers_tame obs _ _ pe.2 ho).2
    have h4 : pe.1.currentStepName = out.ctx.currentStepName :=
      addError_currentStepName out.ctx s.name e out.world
    rw [h3, h4, h2, h1]
  · simp only [notifiedEvents_append, hr1, hr2,
      notifyObservers_notifiedEvents, notifiedEvents_stepExec]
    simp
  · simp only [stepExecs_append, hr1, hr2, notifyObservers_stepExecs,
      stepExecs_single]
    simp
  · intro t ht n htn
    rcases List.mem_append.mp ht with h | h
    · rcases List.mem_append.mp h with h | h
      · have h2 := notifyObservers_touches_only obs (.stepStart s.name)
          _ w t h n htn
        exact (Option.some.inj h2).symm
      · simp at h
        subst h
        have : (s.name == n) = true := htn
        exact (eq_of_beq this).symm
    · have h2 := notifyObservers_touches_only obs (.stepError s.name e)
        pe.1 pe.2 t h n htn
      exact (Option.some.inj h2).symm

/-- C1: for every step list, observer list and input, execute returns the
Context of the run (it is a total function into RunResult: no step or observer
failure escapes it), and every step failure is converted into an error
record appended to the Context via addError and reported to observers via
a step-error notification: the (step, details) projections of the error
records of the returned context coincide, in order, with the step-error
notifications of the run.  The hypotheses say that steps and observers do
not themselves write the engine-owned context fields errors and
currentStepName, the mutation discipline of the data model. -/
theorem C1_execute_converts_step_failures (eng : WorkflowEngine)
    (input : Option JsVal) (w : World)
    (hs : ∀ s ∈ eng.steps, TameStep s)
    (ho : ∀ o ∈ eng.observers, TameObserver o) :
    errPairs (eng.execute input w).ctx
      = stepErrorEvents (eng.execute input w).trace := by
  simp only [WorkflowEngine.execute]
  set pc := WorkflowContext.construct
    (WorkflowEngine.ctxOptions eng.options input) w with hpc
  set r1 := notifyObservers eng.observers .wfStart pc.1 pc.2 with hr1
  set r2 := runSteps (eng.options.continueOnError.getD false) eng.observers
    eng.steps r1.ctx r1.world with hr2
  set pd := r2.ctx.complete r2.world with hpd
  set r3 := notifyObservers eng.observers .wfComplete pd.1 pd.2 with hr3
  have h3 : r3.ctx.errors = pd.1.errors :=
    (notifyObservers_tame _ _ _ _ ho).1
  have hrun := runSteps_errPairs (eng.options.continueOnError.getD false)
    eng.observers ho eng.steps hs r1.ctx r1.world
  have h1 : r1.ctx.errors = pc.1.errors :=
    (notifyObservers_tame _ _ _ _ ho).1
  have h0 : pc.1.errors = [] := construct_errors _ w
  have hstart : errPairs r1.ctx = [] := by
    unfold errPairs
    rw [h1, h0]
    rfl
  have hL : errPairs r3.ctx = stepErrorEvents r2.trace := by
    rw [errPairs_congr h3, complete_errPairs, hrun, hstart]
    simp
  rw [hL]
  simp only [stepErrorEvents_append, hr1, hr3,
    notifyObservers_stepErrorEvents, evErrList]
  simp

/-- Witness for C1: the single-failing-step engine with no observers has
its one error record matched by its one step-error notification. -/
theorem C1_witness :
    errPairs (engFail.execute none w0).ctx
      = stepErrorEvents (engFail.execute none w0).trace := by
  apply C1_execute_converts_step_failures engFail none w0
  · intro s hsm
    simp only [engFail] at hsm
    simp at hsm
    subst hsm
    intro c w
    exact ⟨rfl, rfl⟩
  · intro o hom
    simp only [engFail] at hom
    simp at hom

/-- C2: for every three-step sequence A, B, C where A and C succeed, B
fails, and continueOnError is false, execute notifies step-start and
step-complete for A and step-start and step-error for B, never issues any
notification or execution for C, and returns a context whose error list
is exactly one record attributed to B (shown through its (step, details)
projection).  Steps and observers are assumed not to write the
engine-owned context fields, the mutation discipline of the data model. -/
theorem C2_fail_stop_scenario (obs : List WorkflowObserver)
    (ho : ∀ o ∈ obs, TameObserver o) (o : WorkflowEngineOptions)
    (hcont : o.continueOnError.getD false = false)
    (sA sB sC : WorkflowStep)
    (hA : SucceedsStep sA) (hAt : TameStep sA)
    (hB : FailsStep sB) (hBt : TameStep sB)
    (hC : SucceedsStep sC) (hCt : TameStep sC)
    (hca : sC.name ≠ sA.name) (hcb : sC.name ≠ sB.name)
    (input : Option JsVal) (w : World) :
    ∃ e,
      errPairs ((WorkflowEngine.mk [sA, sB, sC] obs o).execute
        input w).ctx = [(sB.name, e)] ∧
      notifiedEvents ((WorkflowEngine.mk [sA, sB, sC] obs o).execute
        input w).trace =
        [.wfStart, .stepStart sA.name, .stepComplete sA.name,
         .stepStart sB.name, .stepError sB.name e, .wfComplete] ∧
      stepExecs ((WorkflowEngine.mk [sA, sB, sC] obs o).execute
        input w).trace = [sA.name, sB.name] ∧
      ∀ t ∈ ((WorkflowEngine.mk [sA, sB, sC] obs o).execute
        input w).trace, t.touches sC.name = false := by
  simp only [WorkflowEngine.execute, hcont]
  set pc := WorkflowContext.construct
    (WorkflowEngine.ctxOptions o input) w with hpc
  set r1 := notifyObservers obs .wfStart pc.1 pc.2 with hr1
  obtain ⟨c1, w1, tA, hEqA, hc1err, hc1csn, hAne, hAse, hAsee, hAtouch⟩ :=
    runSteps_cons_succ false obs ho sA hA hAt [sB, sC] r1.ctx r1.world
  obtain ⟨e, c2, w2, trB, hEqB, hBerr, hBcsn, hBne, hBse, hBtouch⟩ :=
    runSteps_cons_fail_stop obs ho sB hB hBt [sC] c1 w1
  rw [hEqB] at hEqA
  rw [hEqA]
  have herr1 : errPairs r1.ctx = [] := by
    unfold errPairs
    rw [(notifyObservers_tame obs _ _ pc.2 ho).1, construct_errors]
    rfl
  have herrc1 : errPairs c1 = [] := by
    unfold errPairs at herr1 ⊢
    rw [hc1err]
    exact herr1
  have herrc2 : errPairs c2 = [(sB.name, e)] := by
    rw [hBerr, herrc1]
    simp
  refine ⟨e, ?_, ?_, ?_, ?_⟩
  · have h3 : (notifyObservers obs .wfComplete (c2.complete w2).1
        (c2.complete w2).2).ctx.errors = (c2.complete w2).1.errors :=
      (notifyObservers_tame obs _ _ _ ho).1
    rw [errPairs_congr h3, complete_errPairs, herrc2]
  · simp only [notifiedEvents_append, hr1, notifyObservers_notifiedEvents,
      hAne, hBne]
    simp
  · simp only [stepExecs_append, hr1, notifyObservers_stepExecs,
      hAse, hBse]
    simp
  · intro t ht
    simp only [List.append_assoc, List.mem_append] at ht
    rcases ht with h | h | h | h
    · exact notifyObservers_touches (obs) .wfStart pc.1 pc.2 sC.name
        (by simp [Event.stepName]) t h
    · by_contra hbad
      simp only [Bool.not_eq_false] at hbad
      exact hca (hAtouch t h sC.name hbad)
    · by_contra hbad
      simp only [Bool.not_eq_false] at hbad
      exact hcb (hBtouch t h sC.name hbad)
    · exact notifyObservers_touches obs .wfComplete (c2.complete w2).1
        (c2.complete w2).2 sC.name (by simp [Event.stepName]) t h

/-- Witness for C2: the concrete A, B, C engine with the stopping policy
and no observers ends with exactly one error record attributed to B. -/
theorem C2_witness :
    ∃ e, errPairs (engStop.execute none w0).ctx = [("B", e)] := by
  obtain ⟨e, h1, h2, h3, h4⟩ := C2_fail_stop_scenario [] (by intro o h; simp at h)
    optsPlain rfl stepA stepB stepC
    (fun c w => rfl) (fun c w => ⟨rfl, rfl⟩)
    (fun c w => ⟨.strVal "boom", rfl⟩) (fun c w => ⟨rfl, rfl⟩)
    (fun c w => rfl) (fun c w => ⟨rfl, rfl⟩)
    (by decide) (by decide) none w0
  exact ⟨e, h1⟩

/-- C3: for the same three-step sequence with continueOnError true, all
three steps run (step-start and completion notifications for each, in
order, with B reporting step-error), the returned context holds exactly
one error record, attributed to B, and its currentStepName ends as the name
of C: it was set before each invocation and never reset afterward.
Steps and observers are assumed not to write the engine-owned context
fields, the mutation discipline of the data model. -/
theorem C3_fail_continue_scenario (obs : List WorkflowObserver)
    (ho : ∀ o ∈ obs, TameObserver o) (o : WorkflowEngineOptions)
    (hcont : o.continueOnError.getD false = true)
    (sA sB sC : WorkflowStep)
    (hA : SucceedsStep sA) (hAt : TameStep sA)
    (hB : FailsStep sB) (hBt : TameStep sB)
    (hC : SucceedsStep sC) (hCt : TameStep sC)
    (input : Option JsVal) (w : World) :
    ∃ e,
      errPairs ((WorkflowEngine.mk [sA, sB, sC] obs o).execute
        input w).ctx = [(sB.name, e)] ∧
      notifiedEvents ((WorkflowEngine.mk [sA, sB, sC] obs o).execute
        input w).trace =
        [.wfStart, .stepStart sA.name, .stepComplete sA.name,
         .stepStart sB.name, .stepError sB.name e,
         .stepStart sC.name, .stepComplete sC.name, .wfComplete] ∧
      stepExecs ((WorkflowEngine.mk [sA, sB, sC] obs o).execute
        input w).trace = [sA.name, sB.name, sC.name] ∧
      ((WorkflowEngine.mk [sA, sB, sC] obs o).execute
        input w).ctx.currentStepName = some sC.name := by
  simp only [WorkflowEngine.execute, hcont]
  set pc := WorkflowContext.construct
    (WorkflowEngine.ctxOptions o input) w with hpc
  set r1 := notifyObservers obs .wfStart pc.1 pc.2 with hr1
  obtain ⟨c1, w1, tA, hEqA, hc1err, hc1csn, hAne, hAse, hAsee, hAtouch⟩ :=
    runSteps_cons_succ true obs ho sA hA hAt [sB, sC] r1.ctx r1.world
  obtain ⟨e, c2, w2, tB, hEqB, hBerr, hBcsn, hBne, hBse, hBtouch⟩ :=
    runSteps_cons_fail_cont obs ho sB hB hBt [sC] c1 w1
  obtain ⟨c3, w3, tC, hEqC, hc3err, hc3csn, hCne, hCse, hCsee, hCtouch⟩ :=
    runSteps_cons_succ true obs ho sC hC hCt [] c2 w2
  rw [runSteps_nil] at hEqC
  rw [hEqC] at hEqB
  rw [hEqB] at hEqA
  rw [hEqA]
  have herr1 : errPairs r1.ctx = [] := by
    unfold errPairs
    rw [(notifyObservers_tame obs _ _ pc.2 ho).1, construct_errors]
    rfl
  have herrc1 : errPairs c1 = [] := by
    unfold errPairs at herr1 ⊢
    rw [hc1err]
    exact herr1
  have herrc3 : errPairs c3 = [(sB.name, e)] := by
    unfold errPairs at herrc1 ⊢
    rw [hc3err]
    have := hBerr
    unfold errPairs at this
    rw [this, herrc1]
    simp
  refine ⟨e, ?_, ?_, ?_, ?_⟩
  · have h3 : (notifyObservers obs .wfComplete (c3.complete w3).1
        (c3.complete w3).2).ctx.errors = (c3.complete w3).1.errors :=
      (notifyObservers_tame obs _ _ _ ho).1
    rw [errPairs_congr h3, complete_errPairs, herrc3]
  · simp only [notifiedEvents_append, hr1, notifyObservers_notifiedEvents,
      hAne, hBne, hCne, notifiedEvents_nil]
    simp
  · simp only [stepExecs_append, hr1, notifyObservers_stepExecs,
      hAse, hBse, hCse, stepExecs_nil]
    simp
  · have h3 : (notifyObservers obs .wfComplete (c3.complete w3).1
        (c3.complete w3).2).ctx.currentStepName =
        (c3.complete w3).1.currentStepName :=
      (notifyObservers_tame obs _ _ _ ho).2
    rw [h3, complete_currentStepName, hc3csn]

/-- Witness for C3: the concrete A, B, C engine with continueOnError ends
with currentStepName pointing at C. -/
theorem C3_witness :
    (engCont.execute none w0).ctx.currentStepName = some "C" := by
  obtain ⟨e, h1, h2, h3, h4⟩ := C3_fail_continue_scenario []
    (by intro o h; simp at h) optsCont rfl stepA stepB stepC
    (fun c w => rfl) (fun c w => ⟨rfl, rfl⟩)
    (fun c w => ⟨.strVal "boom", rfl⟩) (fun c w => ⟨rfl, rfl⟩)
    (fun c w => rfl) (fun c w => ⟨rfl, rfl⟩) none w0
  exact h4

/-- Counterexample to C4: in the concrete run of a conditional step named
"branch" whose delegated child "child" fails, the single error record is
attributed to "branch", the own name of the branch step, not to the name
of the child as the claim states. -/
theorem C4_counterexample :
    (engCond.execute none w0).ctx.errors.map (fun r => r.step)
      = ["branch"] ∧
    ¬ (engCond.execute none w0).ctx.errors.map (fun r => r.step)
      = ["child"] := by
  constructor
  · rfl
  · decide

/-- C4 amended: when the delegated child of a condition-branching step
fails, the error record appended to the context carries the registered
name of the branch step itself, never that of the delegated child,
because the engine
attributes errors at its own granularity (the name of the registered
step).  Stated for a run of the engine whose step is the conditional;
the child, the predicate and the optional false branch are arbitrary. -/
theorem C4_branch_error_uses_branch_name (obs : List WorkflowObserver)
    (ho : ∀ x ∈ obs, TameObserver x) (o : WorkflowEngineOptions)
    (n : String) (cond : WorkflowContext → Bool) (child : WorkflowStep)
    (fsOpt : Option WorkflowStep) (input : Option JsVal) (w : World)
    (hfail : FailsStep (WorkflowStep.conditional n cond child fsOpt))
    (htame : TameStep (WorkflowStep.conditional n cond child fsOpt)) :
    ∃ e, errPairs ((WorkflowEngine.mk
      [WorkflowStep.conditional n cond child fsOpt] obs o).execute
        input w).ctx = [(n, e)] := by
  simp only [WorkflowEngine.execute]
  set pc := WorkflowContext.construct
    (WorkflowEngine.ctxOptions o input) w with hpc
  set r1 := notifyObservers obs .wfStart pc.1 pc.2 with hr1
  have herr1 : errPairs r1.ctx = [] := by
    unfold errPairs
    rw [(notifyObservers_tame obs _ _ pc.2 ho).1, construct_errors]
    rfl
  cases hcont : o.continueOnError.getD false with
  | false =>
    obtain ⟨e, c1, w1, tr, hEq, herr, hcsn, hne, hse, htouch⟩ :=
      runSteps_cons_fail_stop obs ho
        (WorkflowStep.conditional n cond child fsOpt) hfail htame []
        r1.ctx r1.world
    rw [hEq]
    refine ⟨e, ?_⟩
    have h3 : (notifyObservers obs .wfComplete (c1.complete w1).1
        (c1.complete w1).2).ctx.errors = (c1.complete w1).1.errors :=
      (notifyObservers_tame obs _ _ _ ho).1
    rw [errPairs_congr h3, complete_errPairs, herr, herr1]
    simp [WorkflowStep.name]
  | true =>
    obtain ⟨e, c1, w1, tr, hEq, herr, hcsn, hne, hse, htouch⟩ :=
      runSteps_cons_fail_cont obs ho
        (WorkflowStep.conditional n cond child fsOpt) hfail htame []
        r1.ctx r1.world
    rw [runSteps_nil] at hEq
    rw [hEq]
    refine ⟨e, ?_⟩
    have h3 : (notifyObservers obs .wfComplete (c1.complete w1).1
        (c1.complete w1).2).ctx.errors = (c1.complete w1).1.errors :=
      (notifyObservers_tame obs _ _ _ ho).1
    rw [errPairs_congr h3, complete_errPairs, herr, herr1]
    simp [WorkflowStep.name]

/-- Witness for the amended C4 at the concrete conditional engine. -/
theorem C4_witness :
    ∃ e, errPairs (engCond.execute none w0).ctx = [("branch", e)] :=
  C4_branch_error_uses_branch_name [] (by intro x h; simp at h)
    optsPlain "branch" (fun _ => true) (.basic "child" failExec) none
    none w0 (fun c w => ⟨.strVal "boom", rfl⟩) (fun c w => ⟨rfl, rfl⟩)

/-- Counterexample to C5: a second call to complete does not leave the
end time unchanged; it overwrites it with the later instant. -/
theorem C5_counterexample :
    ¬ (((ctxEx.complete w0).1.complete (ctxEx.complete w0).2).1).endTime
      = ((ctxEx.complete w0).1).endTime := by
  decide

/-- C5 amended: complete sets the end time to the current instant
unconditionally, so a second call overwrites the end time set by the
first with the later instant; within one engine run complete is invoked
exactly once, at the end.  The world clock advances at each instant
query, so the two instants differ. -/
theorem C5_complete_overwrites (c : WorkflowContext) (w : World) :
    ((c.complete w).1).endTime = some w.clock ∧
    (((c.complete w).1.complete (c.complete w).2).1).endTime
      = some (w.clock + 1) ∧
    some (w.clock + 1) ≠ some w.clock := by
  refine ⟨rfl, rfl, by simp⟩

/-- A context constructed from options with no metadata seed reads back a
fresh empty metadata object, whatever the world. -/
theorem construct_fresh_meta (o : WorkflowContextOptions) (w : World)
    (h : o.metadataRef = none) :
    ((WorkflowContext.construct o w).2).readMeta
      ((WorkflowContext.construct o w).1).metadataRef = some [] := by
  unfold WorkflowContext.construct World.readMeta World.allocMeta
    World.now World.freshUuid
  rw [h]
  cases hw : o.workflowId <;> simp

/-- Counterexample to C6: for an engine configured with a caller-supplied
metadata seed object, the metadata write made by a step during the first
run is visible in the context of the second run at its construction: the
construction that opens the second execute call reads back the object
already holding the key written by the first run, not the empty seed. -/
theorem C6_counterexample :
    ((WorkflowContext.construct
        (WorkflowEngine.ctxOptions engSeed.options none)
        (engSeed.execute none wSeed).world).2).readMeta
      ((WorkflowContext.construct
        (WorkflowEngine.ctxOptions engSeed.options none)
        (engSeed.execute none wSeed).world).1).metadataRef
      = some [("k", .numVal 1)] ∧
    some [("k", JsVal.numVal 1)] ≠ some ([] : MetaMap) := by
  constructor
  · rfl
  · decide

/-- C6 amended: each execute call creates its own context, and when the
engine options carry no metadata seed the context is constructed with a
fresh empty metadata object, so no write from an earlier run is visible
at the construction opening the next run; when a caller-supplied metadata
seed object is configured, that object is shared by reference across
runs.  The construction below is the one the second execute call begins
with, applied to the world left by the first run. -/
theorem C6_independent_runs_without_seed (eng : WorkflowEngine)
    (input1 input2 : Option JsVal) (w : World)
    (h : eng.options.metadataRef = none) :
    ((WorkflowContext.construct
        (WorkflowEngine.ctxOptions eng.options input2)
        (eng.execute input1 w).world).2).readMeta
      ((WorkflowContext.construct
        (WorkflowEngine.ctxOptions eng.options input2)
        (eng.execute input1 w).world).1).metadataRef = some [] :=
  construct_fresh_meta _ _ (by simpa [WorkflowEngine.ctxOptions] using h)

/-- Witness for the amended C6 at the unseeded three-step engine. -/
theorem C6_witness :
    ((WorkflowContext.construct
        (WorkflowEngine.ctxOptions engStop.options none)
        (engStop.execute none w0).world).2).readMeta
      ((WorkflowContext.construct
        (WorkflowEngine.ctxOptions engStop.options none)
        (engStop.execute none w0).world).1).metadataRef = some [] :=
  C6_independent_runs_without_seed engStop none none w0 rfl

/-- C8: addError appends exactly one record; when the failure is an Error
instance the message of the record is the message text of that error, otherwise the
message is the String conversion of the failure; in both cases the
details field is the original failure value; for a plain string failure
the message and the details both carry that string. -/
theorem C8_addError_shape (c : WorkflowContext) (st : String) (e : JsVal)
    (w : World) :
    ((c.addError st e w).1).errors
      = c.errors ++ [⟨st, errMessage e, e, w.clock⟩] ∧
    (∀ m, e = JsVal.errObj m → errMessage e = m) ∧
    (e.isErrorInstance = false → errMessage e = jsToString e) ∧
    (∀ s, e = JsVal.strVal s →
      errMessage e = s ∧ jsToString e = s) := by
  refine ⟨rfl, ?_, ?_, ?_⟩
  · intro m hm
    subst hm
    rfl
  · intro hni
    cases e <;> first | rfl | simp [JsVal.isErrorInstance] at hni
  · intro s hs
    subst hs
    exact ⟨rfl, rfl⟩

/-- Witness for C8: an Error failure and a plain string failure appended
to the concrete context. -/
theorem C8_witness :
    ((ctxEx.addError "s" (JsVal.errObj "m") w0).1).errors
      = ctxEx.errors ++ [⟨"s", errMessage (.errObj "m"), .errObj "m",
          w0.clock⟩] ∧
    errMessage (JsVal.errObj "m") = "m" ∧
    errMessage (JsVal.strVal "t") = "t" := by
  refine ⟨(C8_addError_shape ctxEx "s" (.errObj "m") w0).1, ?_, ?_⟩
  · exact (C8_addError_shape ctxEx "s" (.errObj "m") w0).2.1 "m" rfl
  · exact ((C8_addError_shape ctxEx "s" (.strVal "t") w0).2.2.2 "t" rfl).1

/-- C9: the engine accepts the maxConcurrency option but never reads it:
two engines built from the same configuration, steps, observers and input
but any two values of maxConcurrency produce identical runs (same
returned context, same world, same trace); steps execute strictly one at
a time in registration order in either case, as the sequential runSteps
loop is the only execution path. -/
theorem C9_maxConcurrency_inert (o : WorkflowEngineOptions)
    (m1 m2 : Option Nat) (ss : List WorkflowStep)
    (obs : List WorkflowObserver) (input : Option JsVal) (w : World) :
    ((WorkflowEngine.create { o with maxConcurrency := m1 }).addSteps
        ss |>.addObservers obs).execute input w
      = ((WorkflowEngine.create { o with maxConcurrency := m2 }).addSteps
        ss |>.addObservers obs).execute input w := rfl

/-- C10: when onStepComplete of the duration-aggregating observer is
invoked for a workflow id and step name for which no start instant is on
record, it returns the observer state and the metadata unchanged, and
onStepError, which delegates to onStepComplete, does the same. -/
theorem C10_perf_no_start_no_effect (st : PerfState) (nowT : Nat)
    (wid sn : String) (perf : Option PerfMetrics)
    (h : lookupNat st.stepStartTimes (perfKey wid sn) = none) :
    PerformanceObserver.onStepComplete st nowT wid sn perf = (st, perf) ∧
    PerformanceObserver.onStepError st nowT wid sn perf = (st, perf) := by
  unfold PerformanceObserver.onStepError PerformanceObserver.onStepComplete
  rw [h]
  exact ⟨rfl, rfl⟩

/-- Witness for C10: the empty start-time record at a concrete key. -/
theorem C10_witness :
    PerformanceObserver.onStepComplete ⟨[]⟩ 5 "wid" "s" none
      = (⟨[]⟩, none) ∧
    PerformanceObserver.onStepError ⟨[]⟩ 5 "wid" "s" none
      = (⟨[]⟩, none) :=
  C10_perf_no_start_no_effect ⟨[]⟩ 5 "wid" "s" none rfl

theorem stripLogs_nil : stripLogs [] = [] := rfl

theorem stripLogs_append (a b : List TraceEntry) :
    stripLogs (a ++ b) = stripLogs a ++ stripLogs b := by
  simp [stripLogs]

theorem stripLogs_cons_notified (ev : Event) (tr : List TraceEntry) :
    stripLogs (.notified ev :: tr) = .notified ev :: stripLogs tr := rfl

theorem callbackFor_suppressAt (o : WorkflowObserver) (k : EventKind)
    (ev : Event) :
    (o.suppressAt k).callbackFor ev =
      if ev.kind = k then (o.callbackFor ev).map suppress
      else o.callbackFor ev := by
  cases k <;> cases ev <;>
    simp [WorkflowObserver.suppressAt, WorkflowObserver.callbackFor,
      Event.kind, Option.map_map, Function.comp] <;>
    rfl

theorem notifyOne_suppressAt (i : Nat) (o : WorkflowObserver)
    (k : EventKind) (ev : Event) (c : WorkflowContext) (w : World) :
    (notifyOne i (o.suppressAt k) ev c w).ctx
      = (notifyOne i o ev c w).ctx ∧
    (notifyOne i (o.suppressAt k) ev c w).world
      = (notifyOne i o ev c w).world ∧
    stripLogs (notifyOne i (o.suppressAt k) ev c w).trace
      = stripLogs (notifyOne i o ev c w).trace := by
  by_cases hk : ev.kind = k
  · rcases hcb : o.callbackFor ev with _ | f
    · have hcb2 : (o.suppressAt k).callbackFor ev = none := by
        rw [callbackFor_suppressAt, if_pos hk, hcb]
        rfl
      simp [notifyOne, hcb, hcb2]
    · have hcb2 : (o.suppressAt k).callbackFor ev = some (suppress f) := by
        rw [callbackFor_suppressAt, if_pos hk, hcb]
        rfl
      cases h2 : (f c w).thrown <;>
        simp [notifyOne, hcb, hcb2, suppress, h2, stripLogs]
  · have heq : notifyOne i (o.suppressAt k) ev c w = notifyOne i o ev c w := by
      unfold notifyOne
      rw [callbackFor_suppressAt, if_neg hk]
    rw [heq]
    exact ⟨rfl, rfl, rfl⟩

theorem notifyFrom_cons (i : Nat) (o : WorkflowObserver)
    (rest : List WorkflowObserver) (ev : Event) (c : WorkflowContext)
    (w : World) :
    notifyFrom i (o :: rest) ev c w =
      ⟨(notifyFrom (i + 1) rest ev (notifyOne i o ev c w).ctx
          (notifyOne i o ev c w).world).ctx,
       (notifyFrom (i + 1) rest ev (notifyOne i o ev c w).ctx
          (notifyOne i o ev c w).world).world,
       (notifyOne i o ev c w).trace ++
         (notifyFrom (i + 1) rest ev (notifyOne i o ev c w).ctx
           (notifyOne i o ev c w).world).trace⟩ := rfl

theorem notifyFrom_suppressAt (k : EventKind) (ob : WorkflowObserver)
    (post : List WorkflowObserver) :
    ∀ (pre : List WorkflowObserver) (i : Nat) (ev : Event)
      (c : WorkflowContext) (w : World),
    (notifyFrom i (pre ++ ob.suppressAt k :: post) ev c w).ctx
      = (notifyFrom i (pre ++ ob :: post) ev c w).ctx ∧
    (notifyFrom i (pre ++ ob.suppressAt k :: post) ev c w).world
      = (notifyFrom i (pre ++ ob :: post) ev c w).world ∧
    stripLogs (notifyFrom i (pre ++ ob.suppressAt k :: post) ev c w).trace
      = stripLogs (notifyFrom i (pre ++ ob :: post) ev c w).trace := by
  intro pre
  induction pre with
  | nil =>
    intro i ev c w
    obtain ⟨hc, hw, ht⟩ := notifyOne_suppressAt i ob k ev c w
    rw [List.nil_append, List.nil_append, notifyFrom_cons, notifyFrom_cons,
      hc, hw]
    refine ⟨rfl, rfl, ?_⟩
    simp only [stripLogs_append, ht]
  | cons o2 rest ih =>
    intro i ev c w
    rw [List.cons_append, List.cons_append, notifyFrom_cons, notifyFrom_cons]
    obtain ⟨hc, hw, ht⟩ := ih (i + 1) ev (notifyOne i o2 ev c w).ctx
      (notifyOne i o2 ev c w).world
    refine ⟨hc, hw, ?_⟩
    simp only [stripLogs_append, ht]

theorem notifyObservers_suppressAt (k : EventKind) (ob : WorkflowObserver)
    (post pre : List WorkflowObserver) (ev : Event) (c : WorkflowContext)
    (w : World) :
    (notifyObservers (pre ++ ob.suppressAt k :: post) ev c w).ctx
      = (notifyObservers (pre ++ ob :: post) ev c w).ctx ∧
    (notifyObservers (pre ++ ob.suppressAt k :: post) ev c w).world
      = (notifyObservers (pre ++ ob :: post) ev c w).world ∧
    stripLogs (notifyObservers (pre ++ ob.suppressAt k :: post) ev c
        w).trace
      = stripLogs (notifyObservers (pre ++ ob :: post) ev c w).trace := by
  obtain ⟨hc, hw, ht⟩ := notifyFrom_suppressAt k ob post pre 0 ev c w
  refine ⟨hc, hw, ?_⟩
  show stripLogs (.notified ev ::
      (notifyFrom 0 (pre ++ ob.suppressAt k :: post) ev c w).trace)
    = stripLogs (.notified ev ::
      (notifyFrom 0 (pre ++ ob :: post) ev c w).trace)
  rw [stripLogs_cons_notified, stripLogs_cons_notified, ht]

theorem runSteps_suppressAt (k : EventKind) (ob : WorkflowObserver)
    (post pre : List WorkflowObserver) (cont : Bool) :
    ∀ (ss : List WorkflowStep) (c : WorkflowContext) (w : World),
    (runSteps cont (pre ++ ob.suppressAt k :: post) ss c w).ctx
      = (runSteps cont (pre ++ ob :: post) ss c w).ctx ∧
    (runSteps cont (pre ++ ob.suppressAt k :: post) ss c w).world
      = (runSteps cont (pre ++ ob :: post) ss c w).world ∧
    stripLogs (runSteps cont (pre ++ ob.suppressAt k :: post) ss c w).trace
      = stripLogs (runSteps cont (pre ++ ob :: post) ss c w).trace := by
  intro ss
  induction ss with
  | nil => intro c w; exact ⟨rfl, rfl, rfl⟩
  | cons s rest ih =>
    intro c w
    rw [runSteps_cons, runSteps_cons]
    obtain ⟨h1c, h1w, h1t⟩ := notifyObservers_suppressAt k ob post pre
      (.stepStart s.name) { c with currentStepName := some s.name } w
    rw [h1c, h1w]
    set out := s.execute
      (notifyObservers (pre ++ ob :: post) (.stepStart s.name)
        { c with currentStepName := some s.name } w).ctx
      (notifyObservers (pre ++ ob :: post) (.stepStart s.name)
        { c with currentStepName := some s.name } w).world with hout
    cases hthr : out.thrown with
    | none =>
      rw [stepFinish_none _ _ _ _ _ _ hthr,
        stepFinish_none _ _ _ _ _ _ hthr]
      obtain ⟨h2c, h2w, h2t⟩ := notifyObservers_suppressAt k ob post pre
        (.stepComplete s.name) out.ctx out.world
      rw [h2c, h2w]
      obtain ⟨h3c, h3w, h3t⟩ := ih
        (notifyObservers (pre ++ ob :: post) (.stepComplete s.name)
          out.ctx out.world).ctx
        (notifyObservers (pre ++ ob :: post) (.stepComplete s.name)
          out.ctx out.world).world
      refine ⟨h3c, h3w, ?_⟩
      simp only [stripLogs_append, h1t, h2t, h3t]
    | some e =>
      cases cont with
      | false =>
        rw [stepFinish_some_stop _ _ _ _ _ _ hthr,
          stepFinish_some_stop _ _ _ _ _ _ hthr]
        obtain ⟨h2c, h2w, h2t⟩ := notifyObservers_suppressAt k ob post pre
          (.stepError s.name e) (out.ctx.addError s.name e out.world).1
          (out.ctx.addError s.name e out.world).2
        refine ⟨h2c, h2w, ?_⟩
        simp only [stripLogs_append, h1t, h2t]
      | true =>
        rw [stepFinish_some_cont _ _ _ _ _ _ hthr,
          stepFinish_some_cont _ _ _ _ _ _ hthr]
        obtain ⟨h2c, h2w, h2t⟩ := notifyObservers_suppressAt k ob post pre
          (.stepError s.name e) (out.ctx.addError s.name e out.world).1
          (out.ctx.addError s.name e out.world).2
        rw [h2c, h2w]
        obtain ⟨h3c, h3w, h3t⟩ := ih
          (notifyObservers (pre ++ ob :: post) (.stepError s.name e)
            (out.ctx.addError s.name e out.world).1
            (out.ctx.addError s.name e out.world).2).ctx
          (notifyObservers (pre ++ ob :: post) (.stepError s.name e)
            (out.ctx.addError s.name e out.world).1
            (out.ctx.addError s.name e out.world).2).world
        refine ⟨h3c, h3w, ?_⟩
        simp only [stripLogs_append, h1t, h2t, h3t]

/-- C7: an observer callback that raises does not destabilize the run.
The run whose observer at some position raises is compared with the run
where that same callback succeeds with identical effects (its thrown
value suppressed): both runs return the same context (so the failure
never reaches the error list), the same world, and the same trace up to
the logged-failure entries, so every notification before and after it,
including the callbacks of all subsequent observers for the event, fires
identically, and the step sequencing and outcome are unchanged.  The
failure itself is caught inside notifyOne and recorded as an obsLogged
trace entry, the diagnostic log. -/
theorem C7_observer_failure_isolated (ss : List WorkflowStep)
    (o : WorkflowEngineOptions) (pre post : List WorkflowObserver)
    (ob : WorkflowObserver) (k : EventKind) (input : Option JsVal)
    (w : World) :
    ((WorkflowEngine.mk ss (pre ++ ob :: post) o).execute input w).ctx
      = ((WorkflowEngine.mk ss (pre ++ ob.suppressAt k :: post) o).execute
        input w).ctx ∧
    ((WorkflowEngine.mk ss (pre ++ ob :: post) o).execute input w).world
      = ((WorkflowEngine.mk ss (pre ++ ob.suppressAt k :: post) o).execute
        input w).world ∧
    stripLogs ((WorkflowEngine.mk ss (pre ++ ob :: post) o).execute
        input w).trace
      = stripLogs ((WorkflowEngine.mk ss (pre ++ ob.suppressAt k :: post)
        o).execute input w).trace := by
  simp only [WorkflowEngine.execute]
  obtain ⟨h1c, h1w, h1t⟩ := notifyObservers_suppressAt k ob post pre
    .wfStart
    (WorkflowContext.construct (WorkflowEngine.ctxOptions o input) w).1
    (WorkflowContext.construct (WorkflowEngine.ctxOptions o input) w).2
  rw [h1c, h1w]
  obtain ⟨h2c, h2w, h2t⟩ := runSteps_suppressAt k ob post pre
    (o.continueOnError.getD false) ss
    (notifyObservers (pre ++ ob :: post) .wfStart
      (WorkflowContext.construct (WorkflowEngine.ctxOptions o input)
        w).1
      (WorkflowContext.construct (WorkflowEngine.ctxOptions o input)
        w).2).ctx
    (notifyObservers (pre ++ ob :: post) .wfStart
      (WorkflowContext.construct (WorkflowEngine.ctxOptions o input)
        w).1
      (WorkflowContext.construct (WorkflowEngine.ctxOptions o input)
        w).2).world
  rw [h2c, h2w]
  obtain ⟨h3c, h3w, h3t⟩ := notifyObservers_suppressAt k ob post pre
    .wfComplete
    ((runSteps (o.continueOnError.getD false) (pre ++ ob :: post) ss
      (notifyObservers (pre ++ ob :: post) .wfStart
        (WorkflowContext.construct (WorkflowEngine.ctxOptions o input)
          w).1
        (WorkflowContext.construct (WorkflowEngine.ctxOptions o input)
          w).2).ctx
      (notifyObservers (pre ++ ob :: post) .wfStart
        (WorkflowContext.construct (WorkflowEngine.ctxOptions o input)
          w).1
        (WorkflowContext.construct (WorkflowEngine.ctxOptions o input)
          w).2).world).ctx.complete
      (runSteps (o.continueOnError.getD false) (pre ++ ob :: post) ss
        (notifyObservers (pre ++ ob :: post) .wfStart
          (WorkflowContext.construct (WorkflowEngine.ctxOptions o input)
            w).1
          (WorkflowContext.construct (WorkflowEngine.ctxOptions o input)
            w).2).ctx
        (notifyObservers (pre ++ ob :: post) .wfStart
          (WorkflowContext.construct (WorkflowEngine.ctxOptions o input)
            w).1
          (WorkflowContext.construct (WorkflowEngine.ctxOptions o input)
            w).2).world).world).1
    ((runSteps (o.continueOnError.getD false) (pre ++ ob :: post) ss
      (notifyObservers (pre ++ ob :: post) .wfStart
        (WorkflowContext.construct (WorkflowEngine.ctxOptions o input)
          w).1
        (WorkflowContext.construct (WorkflowEngine.ctxOptions o input)
          w).2).ctx
      (notifyObservers (pre ++ ob :: post) .wfStart
        (WorkflowContext.construct (WorkflowEngine.ctxOptions o input)
          w).1
        (WorkflowContext.construct (WorkflowEngine.ctxOptions o input)
          w).2).world).ctx.complete
      (runSteps (o.continueOnError.getD false) (pre ++ ob :: post) ss
        (notifyObservers (pre ++ ob :: post) .wfStart
          (WorkflowContext.construct (WorkflowEngine.ctxOptions o input)
            w).1
          (WorkflowContext.construct (WorkflowEngine.ctxOptions o input)
            w).2).ctx
        (notifyObservers (pre ++ ob :: post) .wfStart
          (WorkflowContext.construct (WorkflowEngine.ctxOptions o input)
            w).1
          (WorkflowContext.construct (WorkflowEngine.ctxOptions o input)
            w).2).world).world).2
  refine ⟨h3c.symm, h3w.symm, ?_⟩
  simp only [stripLogs_append, h1t, h2t, h3t]

/-- Witness for the amended C5 at the concrete context and world. -/
theorem C5_witness :
    ((ctxEx.complete w0).1).endTime = some w0.clock ∧
    (((ctxEx.complete w0).1.complete (ctxEx.complete w0).2).1).endTime
      = some (w0.clock + 1) ∧
    some (w0.clock + 1) ≠ some w0.clock :=
  C5_complete_overwrites ctxEx w0
